import Mathlib

/-!
A verification development for the "Form Architect AI" repository: a shallow
embedding of the quiz-form data model, of the Gemini response handling
(fence stripping, trailing-comma sanitization, JSON parsing, field checks),
of the Google Forms export mapper (Mode A batched API requests and Mode B
Apps Script text), and of the PDF ingestion / OCR-fallback loop, together
with theorems settling the specification claims.
-/

namespace FormArch

/-! Character classes

`jsWS` models the JavaScript regex class `\s` (and the character set removed
by `String.prototype.trim`): space, tab, LF, VT, FF, CR, NBSP, the Unicode
space separators, line/paragraph separators and the BOM. -/

def jsWS (c : Char) : Bool :=
  c = ' ' || c = '\t' || c = '\n' || c = '\r' ||
  c.toNat = 11 || c.toNat = 12 || c.toNat = 0xa0 || c.toNat = 0x1680 ||
  (0x2000 ≤ c.toNat && c.toNat ≤ 0x200a) ||
  c.toNat = 0x2028 || c.toNat = 0x2029 || c.toNat = 0x202f ||
  c.toNat = 0x205f || c.toNat = 0x3000 || c.toNat = 0xfeff

/-- JSON-grammar whitespace, as accepted by `JSON.parse`. -/
def isJsonWS (c : Char) : Bool :=
  c = ' ' || c = '\t' || c = '\n' || c = '\r'

/-- The JavaScript regex class `\w`: ASCII letters, digits and underscore. -/
def isWordChar (c : Char) : Bool :=
  (97 ≤ c.toNat && c.toNat ≤ 122) || (65 ≤ c.toNat && c.toNat ≤ 90) ||
  (48 ≤ c.toNat && c.toNat ≤ 57) || c = '_'

def backtick : Char := Char.ofNat 96

def closeBrace : Char := Char.ofNat 125

def openBrace : Char := Char.ofNat 123

/-! Whitespace list helpers -/

def allWS : List Char → Bool
  | [] => true
  | c :: cs => jsWS c && allWS cs

def dropLeadWS : List Char → List Char
  | [] => []
  | c :: cs => if jsWS c then dropLeadWS cs else c :: cs

def dropTrailWS : List Char → List Char
  | [] => []
  | c :: cs => if allWS (c :: cs) then [] else c :: dropTrailWS cs

/-- Model of JavaScript `String.prototype.trim`. -/
def jsTrim (s : String) : String := ⟨dropTrailWS (dropLeadWS s.data)⟩

/-! The trailing-comma sanitizer

Model of `sanitizeJsonString` from the Gemini service:
`jsonStr.replace(/,(?=\s*?[}\]])/g, '')`.
The lookahead is zero-width, so the global replace deletes exactly those
commas whose first following non-whitespace character (looking at the
original text) is a closing brace or bracket; whether the lazy `\s*?` is
lazy or greedy is irrelevant because the lookahead succeeds iff some
whitespace run leads to `}` or `]`, and such a run is unique. -/

def closesNext : List Char → Bool
  | [] => false
  | c :: cs =>
    if c = closeBrace || c = ']' then true
    else if jsWS c then closesNext cs
    else false

def sanitizeChars : List Char → List Char
  | [] => []
  | c :: cs =>
    if c = ',' && closesNext cs then sanitizeChars cs
    else c :: sanitizeChars cs

/-- Model of `sanitizeJsonString` (geminiService): removes every comma that
is followed, ignoring whitespace, by `}` or `]`. -/
def sanitizeJsonString (s : String) : String := ⟨sanitizeChars s.data⟩

/-- Cleanliness: `cleanChars s` holds when no comma of `s` is followed (modulo whitespace) by a
closing `}` or `]`; on such text the sanitizer is the identity. -/
def cleanChars : List Char → Bool
  | [] => true
  | c :: cs => (if c = ',' then !closesNext cs else true) && cleanChars cs

/-- The trailing-comma injection relation. `Injects s t` holds when `t` is
obtained from `s` by inserting commas, each inserted comma being followed
(ignoring intervening whitespace) by a closing `}` or `]` in the resulting
text. This is the formal reading of "JSON text obtained ... by injecting
trailing commas before closing `}` or `]`". -/
inductive Injects : List Char → List Char → Prop where
  | nil : Injects [] []
  | cons (c : Char) {s t : List Char} : Injects s t → Injects (c :: s) (c :: t)
  | inject {s t : List Char} : Injects s t → closesNext t = true →
      Injects s (',' :: t)

/-- String-level version of `Injects`. -/
def StrInjects (s t : String) : Prop := Injects s.data t.data

/-! The markdown-fence stripper

`generateFormFromText` first strips a wrapping code fence:
`/^`+"```"+`(\w*)?\s*\n?(.*?)\n?\s*`+"```"+`$/s` applied to the trimmed
response, keeping group 2 when the match exists and group 2 is non-empty.

Derived deterministic semantics of that regex (anchored at both ends, `s`
flag, no `m` flag):
* the text must start with three backticks; then the greedy `(\w*)?`
  consumes the maximal `\w` run (backtracking it cannot turn failure into
  success because `\w` never overlaps the terminal backticks and `(.*?)`
  absorbs anything);
* the greedy `\s*` then consumes the maximal whitespace run and leaves
  nothing for `\n?`;
* the lazy `(.*?)` makes group 2 the shortest prefix of the remainder whose
  complement consists of a whitespace run followed exactly by the final
  three backticks at the end of the string (`\n?\s*` together accept
  precisely a whitespace run). -/

def dropWordChars : List Char → List Char
  | [] => []
  | c :: cs => if isWordChar c then dropWordChars cs else c :: cs

def fence3 : List Char := [backtick, backtick, backtick]

/-- Does `l` consist of a whitespace run followed exactly by a closing
fence at the end? -/
def isWsThenFence (l : List Char) : Bool := dropLeadWS l == fence3

/-- Group 2 of the fence regex: the shortest prefix whose complement is
whitespace followed by the terminal fence. -/
def findCut : List Char → Option (List Char)
  | [] => none
  | c :: cs =>
    if isWsThenFence (c :: cs) then some []
    else (findCut cs).map (fun m => c :: m)

/-- Model of the fence regex match on the trimmed response: `some m` is
group 2 (possibly empty), `none` means the regex does not match. -/
def fenceMatch (z : String) : Option String :=
  match z.data with
  | c1 :: c2 :: c3 :: rest =>
    if c1 = backtick && c2 = backtick && c3 = backtick then
      (findCut (dropLeadWS (dropWordChars rest))).map (fun m => (⟨m⟩ : String))
    else none
  | _ => none

/-! JSON values and a JSON parser

Numbers keep their source token (their textual grammar is checked); this
avoids modelling binary floating point while staying faithful to which
texts parse. -/

inductive Json where
  | null : Json
  | bool (b : Bool) : Json
  | num (token : String) : Json
  | str (s : String) : Json
  | arr (elems : List Json) : Json
  | obj (fields : List (String × Json)) : Json
deriving Repr

def skipWS : List Char → List Char
  | [] => []
  | c :: cs => if isJsonWS c then skipWS cs else c :: cs

def isDigit (c : Char) : Bool := 48 ≤ c.toNat && c.toNat ≤ 57

def hexVal (c : Char) : Option Nat :=
  if 48 ≤ c.toNat && c.toNat ≤ 57 then some (c.toNat - 48)
  else if 97 ≤ c.toNat && c.toNat ≤ 102 then some (c.toNat - 87)
  else if 65 ≤ c.toNat && c.toNat ≤ 70 then some (c.toNat - 55)
  else none

/-- Body of a JSON string literal, after the opening quote; returns the
decoded characters and the remainder after the closing quote. -/
def parseStringBody : List Char → Option (List Char × List Char)
  | [] => none
  | c :: cs =>
    if c = '"' then some ([], cs)
    else if c = '\\' then
      match cs with
      | [] => none
      | e :: cs2 =>
        if e = '"' || e = '\\' || e = '/' then
          (parseStringBody cs2).map (fun p => (e :: p.1, p.2))
        else if e = 'b' then
          (parseStringBody cs2).map (fun p => (Char.ofNat 8 :: p.1, p.2))
        else if e = 'f' then
          (parseStringBody cs2).map (fun p => (Char.ofNat 12 :: p.1, p.2))
        else if e = 'n' then
          (parseStringBody cs2).map (fun p => ('\n' :: p.1, p.2))
        else if e = 'r' then
          (parseStringBody cs2).map (fun p => ('\r' :: p.1, p.2))
        else if e = 't' then
          (parseStringBody cs2).map (fun p => ('\t' :: p.1, p.2))
        else if e = 'u' then
          match cs2 with
          | h1 :: h2 :: h3 :: h4 :: cs3 =>
            match hexVal h1, hexVal h2, hexVal h3, hexVal h4 with
            | some a, some b, some c', some d =>
              (parseStringBody cs3).map
                (fun p => (Char.ofNat (((a * 16 + b) * 16 + c') * 16 + d) :: p.1, p.2))
            | _, _, _, _ => none
          | _ => none
        else none
    else if c.toNat < 32 then none
    else (parseStringBody cs).map (fun p => (c :: p.1, p.2))

def takeDigits : List Char → List Char × List Char
  | [] => ([], [])
  | c :: cs =>
    if isDigit c then
      let p := takeDigits cs
      (c :: p.1, p.2)
    else ([], c :: cs)

/-- The integer part of a JSON number: `0` or a nonzero digit followed by
digits. -/
def parseIntDigits : List Char → Option (List Char × List Char)
  | [] => none
  | c :: cs =>
    if c = '0' then some ([c], cs)
    else if isDigit c then
      let p := takeDigits cs
      some (c :: p.1, p.2)
    else none

/-- Optional fraction part `.[0-9]+`. -/
def parseFrac : List Char → Option (List Char × List Char)
  | '.' :: cs =>
    match takeDigits cs with
    | ([], _) => none
    | (ds, rest) => some ('.' :: ds, rest)
  | l => some ([], l)

/-- Optional exponent part `[eE][+-]?[0-9]+`. -/
def parseExp : List Char → Option (List Char × List Char)
  | c :: cs =>
    if c = 'e' || c = 'E' then
      match cs with
      | s :: cs2 =>
        if s = '+' || s = '-' then
          match takeDigits cs2 with
          | ([], _) => none
          | (ds, rest) => some (c :: s :: ds, rest)
        else
          match takeDigits (s :: cs2) with
          | ([], _) => none
          | (ds, rest) => some (c :: ds, rest)
      | [] => none
    else some ([], c :: cs)
  | [] => some ([], [])

/-- A JSON number token `-?(0|[1-9][0-9]*)(\.[0-9]+)?([eE][+-]?[0-9]+)?`. -/
def parseNumber (l : List Char) : Option (List Char × List Char) :=
  let core := fun (m : List Char) =>
    match parseIntDigits m with
    | none => none
    | some (ip, r1) =>
      match parseFrac r1 with
      | none => none
      | some (fp, r2) =>
        match parseExp r2 with
        | none => none
        | some (ep, r3) => some (ip ++ fp ++ ep, r3)
  match l with
  | '-' :: cs => (core cs).map (fun p => ('-' :: p.1, p.2))
  | _ => core l

mutual

/-- Fuel-based recursive-descent JSON value parser (model of `JSON.parse`;
object fields are kept in source order, duplicates included). -/
def parseValue : Nat → List Char → Option (Json × List Char)
  | 0, _ => none
  | fuel + 1, l =>
    match skipWS l with
    | [] => none
    | c :: rest =>
      if c = '"' then (parseStringBody rest).map (fun p => (Json.str ⟨p.1⟩, p.2))
      else if c = '[' then
        match skipWS rest with
        | c2 :: rest2 =>
          if c2 = ']' then some (Json.arr [], rest2)
          else
            (parseArrayItems fuel rest).map (fun p => (Json.arr p.1, p.2))
        | [] => none
      else if c = openBrace then
        match skipWS rest with
        | c2 :: rest2 =>
          if c2 = closeBrace then some (Json.obj [], rest2)
          else
            (parseObjFields fuel rest).map (fun p => (Json.obj p.1, p.2))
        | [] => none
      else if c = 'n' then
        match rest with
        | 'u' :: 'l' :: 'l' :: r => some (Json.null, r)
        | _ => none
      else if c = 't' then
        match rest with
        | 'r' :: 'u' :: 'e' :: r => some (Json.bool true, r)
        | _ => none
      else if c = 'f' then
        match rest with
        | 'a' :: 'l' :: 's' :: 'e' :: r => some (Json.bool false, r)
        | _ => none
      else (parseNumber (c :: rest)).map (fun p => (Json.num ⟨p.1⟩, p.2))

/-- One or more comma-separated array elements, ending at `]`. -/
def parseArrayItems : Nat → List Char → Option (List Json × List Char)
  | 0, _ => none
  | fuel + 1, l =>
    match parseValue fuel l with
    | none => none
    | some (v, r) =>
      match skipWS r with
      | c :: r2 =>
        if c = ',' then
          match parseArrayItems fuel r2 with
          | some (vs, r3) => some (v :: vs, r3)
          | none => none
        else if c = ']' then some ([v], r2)
        else none
      | [] => none

/-- One or more comma-separated object members, ending at `}`. -/
def parseObjFields : Nat → List Char → Option (List (String × Json) × List Char)
  | 0, _ => none
  | fuel + 1, l =>
    match skipWS l with
    | c :: rest =>
      if c = '"' then
        match parseStringBody rest with
        | none => none
        | some (key, r1) =>
          match skipWS r1 with
          | ':' :: r2 =>
            match parseValue fuel r2 with
            | none => none
            | some (v, r3) =>
              match skipWS r3 with
              | c2 :: r4 =>
                if c2 = ',' then
                  match parseObjFields fuel r4 with
                  | some (fs, r5) => some ((⟨key⟩, v) :: fs, r5)
                  | none => none
                else if c2 = closeBrace then some ([(⟨key⟩, v)], r4)
                else none
              | [] => none
          | _ => none
      else none
    | [] => none

end

/-- Model of `JSON.parse` on a whole text: parse one value, then only
whitespace may remain. `none` models a thrown `SyntaxError`. -/
def parseJson (s : String) : Option Json :=
  match parseValue (s.length + 2) s.data with
  | some (v, rest) => if (skipWS rest).isEmpty then some v else none
  | none => none

/-! The form-generation client (`generateFormFromText`)

The upstream Gemini call is an opaque external dependency; it is modelled
by its outcome (`failure`, or `success` with the raw response text). The
error channel of the TypeScript function (thrown `Error`s) is modelled by
`Except String`, carrying the exact caller-visible messages. -/

/-- JavaScript truthiness of a property-access result (`undefined`, `null`,
`false`, `0`, `""` are falsy; arrays and objects are truthy). -/
def mantissaChars : List Char → List Char
  | [] => []
  | c :: cs => if c = 'e' || c = 'E' then [] else c :: mantissaChars cs

/-- A JSON number token denotes zero iff its mantissa has no digit 1-9. -/
def numTokenIsZero (tok : String) : Bool :=
  (mantissaChars tok.data).all (fun c => !(49 ≤ c.toNat && c.toNat ≤ 57))

def truthy : Option Json → Bool
  | none => false
  | some Json.null => false
  | some (Json.bool b) => b
  | some (Json.str s) => s != ""
  | some (Json.num tok) => !numTokenIsZero tok
  | some (Json.arr _) => true
  | some (Json.obj _) => true

/-- JavaScript property access on a parsed JSON value (`JSON.parse` keeps
the last of duplicate keys; access on a non-object yields `undefined`). -/
def getField (j : Json) (key : String) : Option Json :=
  match j with
  | Json.obj fields =>
    fields.foldl (fun acc kv => if kv.1 = key then some kv.2 else acc) none
  | _ => none

def isJsonArray : Option Json → Bool
  | some (Json.arr _) => true
  | _ => false

def missingFieldsMsg : String :=
  "AI response is missing required fields (title, description, or items)."

def couldNotProcessMsg : String :=
  "The AI\x27s response couldn\x27t be processed. This can happen with complex requests. Please try simplifying or rephrasing your input."

def upstreamFailMsg : String :=
  "Failed to generate form from AI. The service might be temporarily unavailable or the input is too complex."

/-- The required-top-level-fields check of `generateFormFromText`:
`!parsedData.title || !parsedData.description || !Array.isArray(parsedData.items)`. -/
def validateFields (j : Json) : Except String Json :=
  if !truthy (getField j "title") || !truthy (getField j "description")
      || !isJsonArray (getField j "items") then
    Except.error missingFieldsMsg
  else
    Except.ok j

/-- The response-text preprocessing of `generateFormFromText`: trim, strip
a wrapping markdown fence when the regex matches with a non-empty group 2
(taking the trimmed group), then remove trailing commas. -/
def preprocess (text : String) : String :=
  let z := jsTrim text
  let z2 :=
    match fenceMatch z with
    | some m => if m == "" then z else jsTrim m
    | none => z
  sanitizeJsonString z2

inductive UpstreamResult where
  | failure : UpstreamResult
  | success (text : String) : UpstreamResult

/-- Model of `generateFormFromText`: on upstream failure the generic
service message; then preprocess, `JSON.parse` (a `SyntaxError` is mapped
in the catch block to the could-not-process message), then the
required-fields check whose error is rethrown unchanged. -/
def generateFormFromText : UpstreamResult → Except String Json
  | UpstreamResult.failure => Except.error upstreamFailMsg
  | UpstreamResult.success text =>
    match parseJson (preprocess text) with
    | none => Except.error couldNotProcessMsg
    | some j => validateFields j

/-! The Form data model (`types.ts`) -/

inductive ItemType where
  | SHORT_ANSWER
  | PARAGRAPH
  | MULTIPLE_CHOICE
  | CHECKBOXES
  | DROPDOWN
  | SECTION_HEADER
deriving DecidableEq, Repr

/-- Type of `correctAnswer?: string | string[]`. -/
inductive CorrectAnswer where
  | single (s : String)
  | multi (xs : List String)
deriving DecidableEq, Repr

/-- Structure `FormItem` from `types.ts`; `points` is modelled as an integer (the
claims only involve comparisons with zero). -/
structure FormItem where
  title : String
  description : Option String := none
  type : ItemType
  options : Option (List String) := none
  points : Option Int := none
  correctAnswer : Option CorrectAnswer := none
  required : Option Bool := none
deriving DecidableEq, Repr

structure Form where
  title : String
  description : String
  items : List FormItem
deriving DecidableEq, Repr

/-- JavaScript truthiness of the `correctAnswer` field (an empty string is
falsy, but an empty array is truthy). -/
def answerTruthy : Option CorrectAnswer → Bool
  | none => false
  | some (CorrectAnswer.single s) => s != ""
  | some (CorrectAnswer.multi _) => true

/-- Normalization `Array.isArray(ca) ? ca : [ca]` of the answer to a sequence. -/
def answersSeq : CorrectAnswer → List String
  | CorrectAnswer.single s => [s]
  | CorrectAnswer.multi xs => xs

/-- Value of `item.points || 0`. -/
def pointsVal (item : FormItem) : Int :=
  match item.points with
  | none => 0
  | some p => p

/-! Export Mapper, Mode A (`mapItemToApiRequest`, `createForm`) -/

structure Grading where
  pointValue : Int
  correctAnswers : List String
deriving DecidableEq, Repr

structure ApiQuestion where
  required : Option Bool := none
  grading : Option Grading := none
  textQuestion : Option Bool := none
  choiceQuestion : Option (String × List String) := none
deriving DecidableEq, Repr

inductive ApiItemPayload where
  | questionItem (q : ApiQuestion)
  | textItem
deriving DecidableEq, Repr

structure CreateItemReq where
  title : String
  description : Option String := none
  payload : ApiItemPayload
  locationIndex : Nat
deriving DecidableEq, Repr

inductive ApiRequest where
  | updateSettings (isQuiz : Bool)
  | createItem (c : CreateItemReq)
  | updateFormInfo (description : String)
deriving DecidableEq, Repr

/-- Condition `if (item.points && item.points > 0 && item.correctAnswer)`:
the grading block of `mapItemToApiRequest`. -/
def itemGrading (item : FormItem) : Option Grading :=
  match item.points, item.correctAnswer with
  | some p, some ca =>
    if p != 0 && decide (0 < p) && answerTruthy (some ca) then
      some { pointValue := p, correctAnswers := answersSeq ca }
    else none
  | _, _ => none

/-- Flag set by `if (item.required) question.required = true`. -/
def apiRequired (item : FormItem) : Option Bool :=
  if item.required = some true then some true else none

/-- The nested ternary choosing the external choice kind. -/
def choiceTypeString (t : ItemType) : String :=
  if t = ItemType.MULTIPLE_CHOICE then "RADIO"
  else if t = ItemType.CHECKBOXES then "CHECKBOX"
  else "DROP_DOWN"

/-- Model of `mapItemToApiRequest` (GoogleFormModal). The TypeScript
`default` branch returns `null`; the enum being closed, the result is
`Option`-valued. Every `createItem` targets `location.index = 0`. -/
def mapItemToApiRequest (item : FormItem) : Option ApiRequest :=
  let question : ApiQuestion :=
    { required := apiRequired item, grading := itemGrading item }
  match item.type with
  | ItemType.SHORT_ANSWER =>
    some (ApiRequest.createItem
      { title := item.title,
        payload := ApiItemPayload.questionItem { question with textQuestion := some false },
        locationIndex := 0 })
  | ItemType.PARAGRAPH =>
    some (ApiRequest.createItem
      { title := item.title,
        payload := ApiItemPayload.questionItem
          { required := apiRequired item, textQuestion := some true },
        locationIndex := 0 })
  | ItemType.MULTIPLE_CHOICE | ItemType.CHECKBOXES | ItemType.DROPDOWN =>
    some (ApiRequest.createItem
      { title := item.title,
        payload := ApiItemPayload.questionItem
          { question with
            choiceQuestion := some (choiceTypeString item.type, item.options.getD []) },
        locationIndex := 0 })
  | ItemType.SECTION_HEADER =>
    some (ApiRequest.createItem
      { title := item.title, description := item.description,
        payload := ApiItemPayload.textItem, locationIndex := 0 })

def quizSettingsRequest : ApiRequest := ApiRequest.updateSettings true

def descriptionUpdateRequest (form : Form) : ApiRequest :=
  ApiRequest.updateFormInfo form.description

/-- List `form.items.map(mapItemToApiRequest).filter(Boolean).reverse()`. -/
def itemRequests (form : Form) : List ApiRequest :=
  ((form.items.map mapItemToApiRequest).filterMap id).reverse

/-- Batch `[quizSettingsRequest, ...itemRequests, descriptionUpdateRequest]`: the
request list of the single `batchUpdate` call issued by `createForm`. -/
def allRequests (form : Form) : List ApiRequest :=
  quizSettingsRequest :: (itemRequests form ++ [descriptionUpdateRequest form])

/-! Export Mapper, Mode B (`generateAppsScript`) -/

/-- Hexadecimal digit (lowercase), for `JSON.stringify` escapes. -/
def hexDigit (n : Nat) : Char :=
  if n < 10 then Char.ofNat (48 + n) else Char.ofNat (87 + n)

/-- Escaping of a single character inside a string, as `JSON.stringify` does. -/
def escChar (c : Char) : List Char :=
  if c = '"' then ['\\', '"']
  else if c = '\\' then ['\\', '\\']
  else if c = '\n' then ['\\', 'n']
  else if c = '\r' then ['\\', 'r']
  else if c = '\t' then ['\\', 't']
  else if c.toNat = 8 then ['\\', 'b']
  else if c.toNat = 12 then ['\\', 'f']
  else if c.toNat < 32 then
    ['\\', 'u', '0', '0', hexDigit (c.toNat / 16), hexDigit (c.toNat % 16)]
  else [c]

/-- Model of `JSON.stringify` applied to a string: a double-quoted,
escaped literal. -/
def jsStringify (s : String) : String :=
  ⟨'"' :: s.data.foldr (fun c acc => escChar c ++ acc) ['"']⟩

def boolStr (b : Bool) : String := if b then "true" else "false"

/-- Answer-key flag `const hasAnswerKey = item.correctAnswer !== undefined && ... &&
(Array.isArray(...) ? length > 0 : !!item.correctAnswer)`. -/
def hasAnswerKey (item : FormItem) : Bool :=
  match item.correctAnswer with
  | none => false
  | some (CorrectAnswer.single s) => s != ""
  | some (CorrectAnswer.multi xs) => !xs.isEmpty

/-- Choice marking `Array.isArray(ca) ? ca.includes(option) : ca === option`. -/
def choiceIsCorrect (item : FormItem) (opt : String) : Bool :=
  match item.correctAnswer with
  | none => false
  | some (CorrectAnswer.single s) => s == opt
  | some (CorrectAnswer.multi xs) => xs.contains opt

/-- Model of `Array.prototype.join(sep)`. -/
def intercalateStr (sep : String) : List String → String
  | [] => ""
  | [s] => s
  | s :: rest => s ++ sep ++ intercalateStr sep rest

/-- The Apps Script method name for a choice item. -/
def choiceMethod (t : ItemType) : String :=
  if t = ItemType.MULTIPLE_CHOICE then "addMultipleChoiceItem"
  else if t = ItemType.CHECKBOXES then "addCheckboxItem"
  else "addListItem"

/-- The manual-step comment block appended for a gradable short-answer
item (source lines 37-45). -/
def saWarnBlock (item : FormItem) : String :=
  "\n\n  // --- IMPORTANT: MANUAL STEP REQUIRED FOR THE QUESTION ABOVE ---" ++
  "\n  // Google Apps Script does not allow setting the correct answer for \x27Short Answer\x27 questions automatically." ++
  (match item.correctAnswer with
   | some (CorrectAnswer.single s) =>
     if s != "" then
       "\n  // You must set this in the Google Forms editor. The suggested correct answer is: "
         ++ jsStringify s
     else "\n  // You must set the correct answer manually in the Google Forms editor."
   | _ => "\n  // You must set the correct answer manually in the Google Forms editor.") ++
  "\n  // -------------------------------------------------------------"

/-- The warning comment for a gradable choice item with no answer key. -/
def choiceWarnLine : String :=
  "\n  // AI WARNING: This question was assigned points, but the AI did not identify a correct answer. Please set the answer manually in the Form editor."

/-- The per-item Apps Script text: the body of `form.items.map(...)` in
`generateAppsScript`, transcribed branch by branch. -/
def itemScript (item : FormItem) : String :=
  let title := jsStringify item.title
  let points := pointsVal item
  let required := item.required == some true
  match item.type with
  | ItemType.SHORT_ANSWER =>
    let base := "  var item = form.addTextItem().setTitle(" ++ title
      ++ ").setRequired(" ++ boolStr required ++ ");"
    if 0 < points then
      base ++ "\n  item.setPoints(" ++ toString points ++ ");" ++ saWarnBlock item
    else base
  | ItemType.PARAGRAPH =>
    "  form.addParagraphTextItem().setTitle(" ++ title ++ ").setRequired("
      ++ boolStr required ++ ");"
  | ItemType.MULTIPLE_CHOICE | ItemType.CHECKBOXES | ItemType.DROPDOWN =>
    let base := "  var item = form." ++ choiceMethod item.type ++ "().setTitle("
      ++ title ++ ").setRequired(" ++ boolStr required ++ ");"
    let choices := intercalateStr ", " ((item.options.getD []).map (fun opt =>
      "item.createChoice(" ++ jsStringify opt ++ ", "
        ++ boolStr (choiceIsCorrect item opt) ++ ")"))
    let withChoices := base ++ "\n  item.setChoices(["
      ++ choices ++ "]);"
    let withPoints :=
      if 0 < points then
        withChoices ++ "\n  item.setPoints(" ++ toString points ++ ");"
      else withChoices
    if 0 < points && !hasAnswerKey item then withPoints ++ choiceWarnLine
    else withPoints
  | ItemType.SECTION_HEADER =>
    "  form.addSectionHeaderItem().setTitle(" ++ title ++ ").setHelpText("
      ++ jsStringify (item.description.getD "") ++ ");"

/-- The warning comment block carried by an item's script, `""` when the
item carries none (a decomposition of `itemScript`, see the Mode-B
theorems). -/
def itemWarning (item : FormItem) : String :=
  match item.type with
  | ItemType.SHORT_ANSWER => if 0 < pointsVal item then saWarnBlock item else ""
  | ItemType.MULTIPLE_CHOICE | ItemType.CHECKBOXES | ItemType.DROPDOWN =>
    if 0 < pointsVal item && !hasAnswerKey item then choiceWarnLine else ""
  | _ => ""

/-- Script block `itemScript` with the warning comment block removed. -/
def itemScriptCore (item : FormItem) : String :=
  let title := jsStringify item.title
  let points := pointsVal item
  let required := item.required == some true
  match item.type with
  | ItemType.SHORT_ANSWER =>
    let base := "  var item = form.addTextItem().setTitle(" ++ title
      ++ ").setRequired(" ++ boolStr required ++ ");"
    if 0 < points then base ++ "\n  item.setPoints(" ++ toString points ++ ");"
    else base
  | ItemType.PARAGRAPH =>
    "  form.addParagraphTextItem().setTitle(" ++ title ++ ").setRequired("
      ++ boolStr required ++ ");"
  | ItemType.MULTIPLE_CHOICE | ItemType.CHECKBOXES | ItemType.DROPDOWN =>
    let base := "  var item = form." ++ choiceMethod item.type ++ "().setTitle("
      ++ title ++ ").setRequired(" ++ boolStr required ++ ");"
    let choices := intercalateStr ", " ((item.options.getD []).map (fun opt =>
      "item.createChoice(" ++ jsStringify opt ++ ", "
        ++ boolStr (choiceIsCorrect item opt) ++ ")"))
    let withChoices := base ++ "\n  item.setChoices(["
      ++ choices ++ "]);"
    if 0 < points then
      withChoices ++ "\n  item.setPoints(" ++ toString points ++ ");"
    else withChoices
  | ItemType.SECTION_HEADER =>
    "  form.addSectionHeaderItem().setTitle(" ++ title ++ ").setHelpText("
      ++ jsStringify (item.description.getD "") ++ ");"

/-- The fixed text of the script before the item blocks. -/
def scriptHead (form : Form) : String :=
  "function createFormFromAI() \x7b\n  /* \n   * How to use this script:\n   * 1. Go to script.google.com/create in your browser.\n   * 2. Paste this entire code into the editor, replacing any existing content.\n   * 3. Click the \"Save project\" icon (floppy disk).\n   * 4. Click the \"Run\" button.\n   * 5. Google will ask for permission. Click \"Review permissions\" and \"Allow\".\n   * 6. After it runs, click \"View\" > \"Executions\" to see the links to your new form.\n   *\n   * NOTE: Some items, like answers for text questions, may require manual setup.\n   * Please review the generated form and script comments carefully.\n  */\n  \n  try \x7b\n    var form = FormApp.create("
    ++ jsStringify form.title ++ ");\n    form.setDescription("
    ++ jsStringify form.description
    ++ ");\n    form.setIsQuiz(true); // Make it a quiz!\n\n"

/-- The fixed text of the script after the item blocks. -/
def scriptSuffix : String :=
  "\n\n    Logger.log(\x27✅ Form created successfully!\x27);\n    Logger.log(\x27View your form here: \x27 + form.getPublishedUrl());\n    Logger.log(\x27Edit your form here: \x27 + form.getEditUrl());\n  \x7d catch (e) \x7b\n    Logger.log(\x27❌ Error creating form: \x27 + e.toString());\n  \x7d\n\x7d"

/-- Model of `generateAppsScript`: a total, pure text producer. -/
def generateAppsScript (form : Form) : String :=
  scriptHead form
    ++ intercalateStr "\n\n" (form.items.map itemScript)
    ++ scriptSuffix

/-! Substring containment (for "the output contains a comment") -/

def startsWithChars : List Char → List Char → Bool
  | [], _ => true
  | _ :: _, [] => false
  | p :: ps, c :: cs => p = c && startsWithChars ps cs

def occursInChars : List Char → List Char → Bool
  | pat, [] => startsWithChars pat []
  | pat, c :: cs => startsWithChars pat (c :: cs) || occursInChars pat cs

/-- Containment: `strContains s pat` holds when `pat` occurs as a contiguous substring of `s`. -/
def strContains (s pat : String) : Bool := occursInChars pat.data s.data

/-! PDF ingestion and the OCR fallback (`processFile` in InputPanel)

A PDF page is modelled by the outcomes of the external libraries on it:
the text `pdf.js` extracts, the rendered viewport height at scale 1, and
the outcome of the OCR client on its rendering (`none` = the OCR call
fails). -/

structure PdfPage where
  extractedText : String
  height : Int
  ocrResult : Option String
deriving DecidableEq, Repr

/-- The image-only-page heuristic:
`pageText.trim().length < 50 && page.getViewport({scale:1.0}).height > 100`. -/
def ocrCond (p : PdfPage) : Bool :=
  decide ((jsTrim p.extractedText).length < 50) && decide ((100 : Int) < p.height)

def ocrPageErrMsg (i : Nat) : String :=
  "Could not read text from an image on page " ++ toString i
    ++ ". The result might be incomplete."

/-- The page loop of the PDF branch, from page number `i` (pages are
numbered from 1). Returns the accumulated text, the list of page numbers
for which the OCR client was invoked (in invocation order, with
multiplicity), and the `fileProcessingError` left by the last failing OCR
call, if any. On OCR failure the page falls back to its sparse extracted
text and the loop continues. -/
def pdfLoop : Nat → List PdfPage → String × List Nat × Option String
  | _, [] => ("", [], none)
  | i, p :: ps =>
    let rest := pdfLoop (i + 1) ps
    if ocrCond p then
      match p.ocrResult with
      | some ocrText =>
        (ocrText ++ "\n\n" ++ rest.1, i :: rest.2.1, rest.2.2)
      | none =>
        (p.extractedText ++ "\n\n" ++ rest.1, i :: rest.2.1,
          match rest.2.2 with
          | some e => some e
          | none => some (ocrPageErrMsg i))
    else
      (p.extractedText ++ "\n\n" ++ rest.1, rest.2.1, rest.2.2)

/-- A file to ingest: its name, declared content type, and the outcomes of
the external extraction libraries on its contents. -/
structure IngestFile where
  name : String
  mimeType : String
  pdfPages : List PdfPage
  docxText : String
  rawText : String
deriving Repr

/-- The InputPanel state touched by `processFile`. -/
structure PanelState where
  inputText : String
  fileError : Option String
deriving DecidableEq, Repr

/-- ASCII lower-casing of one character (what `toLowerCase` does on the
extensions at issue). -/
def asciiLower (c : Char) : Char :=
  if 65 ≤ c.toNat && c.toNat ≤ 90 then Char.ofNat (c.toNat + 32) else c

/-- Extension `file.name.split('.').pop()?.toLowerCase()`: the segment after the
last dot (the whole name when it has no dot), lower-cased. -/
def fileExtension (name : String) : String :=
  ⟨((name.data.reverse.takeWhile (fun c => c ≠ '.')).reverse).map asciiLower⟩

def unsupportedMsg : String :=
  "Unsupported file type. Please upload a PDF, DOCX, TXT, or MD file."

def isPdfFile (f : IngestFile) : Bool :=
  fileExtension f.name == "pdf" || f.mimeType == "application/pdf"

def isDocxFile (f : IngestFile) : Bool :=
  fileExtension f.name == "docx"
    || f.mimeType == "application/vnd.openxmlformats-officedocument.wordprocessingml.document"

def isTextFile (f : IngestFile) : Bool :=
  fileExtension f.name == "txt" || fileExtension f.name == "md"
    || startsWithChars "text/".data f.mimeType.data

/-- Model of `processFile`: the prior input text is cleared up front
(`setInputText('')`), then the file is dispatched on extension/type; an
unsupported type throws, and the catch block records the message. -/
def processFile (_s : PanelState) (f : IngestFile) : PanelState :=
  if isPdfFile f then
    let r := pdfLoop 1 f.pdfPages
    { inputText := jsTrim r.1, fileError := r.2.2 }
  else if isDocxFile f then
    { inputText := f.docxText, fileError := none }
  else if isTextFile f then
    { inputText := f.rawText, fileError := none }
  else
    { inputText := "", fileError := some unsupportedMsg }

/-! Spec-side definition of a fenced payload (for claim C9) -/

/-- Modelled from the spec: "detect and strip a single leading/trailing
fenced block if the entire payload is wrapped in one (regex-style: opening
fence with optional language tag, closing fence, keep only the
interior)". `IsFencedSpec lang interior t` says `t` is wholly wrapped in
one fenced block whose optional language tag is `lang` and whose interior
is `interior`. -/
def IsFencedSpec (lang interior t : String) : Prop :=
  lang.data.all isWordChar = true ∧
  t = "\x60\x60\x60" ++ lang ++ "\n" ++ interior ++ "\n\x60\x60\x60"

/-! Theorems.

Claim C2 — the trailing-comma sanitizer. -/

theorem injects_refl (s : List Char) : Injects s s := by
  induction s with
  | nil => exact Injects.nil
  | cons c cs ih => exact Injects.cons c ih

/-- Injecting commas never creates a whitespace-then-closer suffix where
the original had none. -/
theorem closesNext_mono {s t : List Char} (h : Injects s t) :
    closesNext t = true → closesNext s = true := by
  induction h with
  | nil => exact id
  | @cons c s' t' h ih =>
    intro hct
    rw [closesNext] at hct ⊢
    split_ifs at hct ⊢ with h1 h2
    · rfl
    · exact ih hct
  | @inject s' t' h hcl ih =>
    intro hct
    rw [show closesNext (',' :: t') = false from rfl] at hct
    cases hct

/-- On clean text (no comma followed by whitespace-then-closer), the
sanitizer undoes exactly the injected commas. -/
theorem sanitize_of_injects {s t : List Char} (hc : cleanChars s = true)
    (h : Injects s t) : sanitizeChars t = s := by
  induction h with
  | nil => rfl
  | @cons c s' t' h ih =>
    rw [cleanChars] at hc
    rw [Bool.and_eq_true] at hc
    rw [sanitizeChars]
    by_cases hcc : c = ','
    · subst hcc
      have hcs : closesNext s' = false := by
        have h1 := hc.1
        simp at h1
        exact h1
      have hts : closesNext t' = false := by
        cases hct : closesNext t'
        · rfl
        · rw [closesNext_mono h hct] at hcs
          cases hcs
      simp [hts, ih hc.2]
    · simp [hcc, ih hc.2]
  | @inject s' t' h hcl ih =>
    rw [sanitizeChars]
    simp [hcl, ih hc]

def c2Orig : String := "[\"a,]\"]"

def c2OrigVal : Json := Json.arr [Json.str "a,]"]

def c2SanVal : Json := Json.arr [Json.str "a]"]

/-- C2, counterexample. The claim quantifies over every JSON text obtained
from a valid JSON document by injecting trailing commas before `}`/`]`,
and asserts the sanitized text parses to the very same document. The valid
document `["a,]"]` (zero commas injected, so the injection relation holds
reflexively) already refutes it: its string literal contains a comma
followed by `]`, the sanitizer deletes that comma, and the output parses
to the different document `["a]"]`. -/
theorem c2_counterexample :
    parseJson c2Orig = some c2OrigVal ∧
    StrInjects c2Orig c2Orig ∧
    parseJson (sanitizeJsonString c2Orig) = some c2SanVal ∧
    c2SanVal ≠ c2OrigVal := by
  refine ⟨rfl, injects_refl _, rfl, ?_⟩
  intro h
  rw [c2SanVal, c2OrigVal] at h
  injection h with h1
  injection h1 with h2 h3
  injection h2 with h4
  exact absurd h4 (by decide)

/-- C2, amended: for every JSON text `s` that parses as a document `d` and
in which no comma is followed (ignoring whitespace) by a closing `}` or
`]` (in particular, no string literal of `s` contains such a comma — the
condition the counterexample forces), and every text `t` obtained from `s`
by injecting trailing commas before closing `}`/`]` (nested and multi-line
positions included), the sanitizer output parses successfully and is the
same document `d`. -/
theorem c2_amended (s t : String) (d : Json) (hp : parseJson s = some d)
    (hc : cleanChars s.data = true) (hi : StrInjects s t) :
    parseJson (sanitizeJsonString t) = some d := by
  have hs : sanitizeChars t.data = s.data := sanitize_of_injects hc hi
  rw [sanitizeJsonString, hs]
  exact hp

/-- C2, witness: `[1]` with one trailing comma injected, `[1,]`, sanitizes
back to text parsing as the original document. -/
theorem c2_witness : parseJson (sanitizeJsonString "[1,]") = some (Json.arr [Json.num "1"]) :=
  c2_amended "[1]" "[1,]" (Json.arr [Json.num "1"]) rfl rfl
    (Injects.cons '[' (Injects.cons '1'
      (Injects.inject (Injects.cons ']' Injects.nil) rfl)))

/-! Claim C1 — the Mode-A batched update -/

/-- With the closed item-type enum, every item yields a request. -/
theorem mapItem_isSome (item : FormItem) : (mapItemToApiRequest item).isSome = true := by
  cases h : item.type <;> simp [mapItemToApiRequest, h]

def isCreateAtIndexZero : ApiRequest → Bool
  | ApiRequest.createItem c => c.locationIndex == 0
  | _ => false

theorem mapItem_create_zero (item : FormItem) (r : ApiRequest)
    (h : mapItemToApiRequest item = some r) : isCreateAtIndexZero r = true := by
  cases ht : item.type <;>
    · simp [mapItemToApiRequest, ht] at h
      rw [← h]
      rfl

theorem exists_requests (l : List FormItem) :
    ∃ rs : List ApiRequest, l.map mapItemToApiRequest = rs.map some ∧
      (l.map mapItemToApiRequest).filterMap id = rs := by
  induction l with
  | nil => exact ⟨[], rfl, rfl⟩
  | cons a l ih =>
    obtain ⟨rs, h1, h2⟩ := ih
    obtain ⟨r, hr⟩ := Option.isSome_iff_exists.mp (mapItem_isSome a)
    refine ⟨r :: rs, ?_, ?_⟩
    · simp [hr, h1]
    · simp [hr, h2]

/-- C1: for every `Form`, `createForm` issues one batched update whose
request list is the quiz-mode-enabling request, then exactly one
item-creation request per `FormItem` in the reverse of the form's item
order (each targeting `location.index = 0`), then the description-setting
request. `rs` lists the per-item creation requests in item order, so
`rs.reverse` is the order sent; `rs.map some = items.map mapItemToApiRequest`
says each item contributes exactly one request; and the list is non-empty,
so the `batchUpdate` call is issued. -/
theorem c1_mode_a_batch (form : Form) :
    ∃ rs : List ApiRequest,
      form.items.map mapItemToApiRequest = rs.map some ∧
      rs.length = form.items.length ∧
      allRequests form =
        quizSettingsRequest :: (rs.reverse ++ [descriptionUpdateRequest form]) ∧
      (∀ r ∈ rs, isCreateAtIndexZero r = true) ∧
      allRequests form ≠ [] := by
  obtain ⟨rs, h1, h2⟩ := exists_requests form.items
  refine ⟨rs, h1, ?_, ?_, ?_, by simp [allRequests]⟩
  · have := congrArg List.length h1
    simpa using this.symm
  · simp [allRequests, itemRequests, h2]
  · intro r hr
    have hmem : some r ∈ form.items.map mapItemToApiRequest := by
      rw [h1]
      exact List.mem_map_of_mem some hr
    obtain ⟨item, _, heq⟩ := List.mem_map.mp hmem
    exact mapItem_create_zero item r heq

/-! Claim C5 — grading blocks in the Mode-A item mapping -/

/-- The grading block carried by a mapped request, if any. -/
def requestGrading : Option ApiRequest → Option Grading
  | some (ApiRequest.createItem c) =>
    match c.payload with
    | ApiItemPayload.questionItem q => q.grading
    | ApiItemPayload.textItem => none
  | _ => none

def c5Item : FormItem :=
  { title := "Q", type := ItemType.SHORT_ANSWER, points := some 1,
    correctAnswer := some (CorrectAnswer.single "") }

/-- C5, counterexample. A `SHORT_ANSWER` item with `points = 1 > 0` and
`correctAnswer` present (the empty string) gets no grading block, because
the source tests JavaScript truthiness (`item.correctAnswer`) and `""` is
falsy — refuting "grading block iff points > 0 and correctAnswer is
present". -/
theorem c5_counterexample :
    c5Item.type = ItemType.SHORT_ANSWER ∧
    c5Item.points = some 1 ∧ (0 : Int) < 1 ∧
    c5Item.correctAnswer.isSome = true ∧
    requestGrading (mapItemToApiRequest c5Item) = none := by
  refine ⟨rfl, rfl, by norm_num, rfl, rfl⟩

/-- C5, amended: a `SHORT_ANSWER` request carries a grading block (point
value = `points`, correct answers = `correctAnswer` wrapped into a
one-element sequence when it is a single string) if and only if
`points > 0` and `correctAnswer` is present and truthy (a non-empty
string, or an array); a `PARAGRAPH` request never carries one. -/
theorem c5_amended (item : FormItem) :
    (item.type = ItemType.SHORT_ANSWER →
      ∀ g : Grading, (requestGrading (mapItemToApiRequest item) = some g ↔
        ∃ p ca, item.points = some p ∧ 0 < p ∧ item.correctAnswer = some ca ∧
          answerTruthy (some ca) = true ∧
          g = { pointValue := p, correctAnswers := answersSeq ca })) ∧
    (item.type = ItemType.PARAGRAPH →
      requestGrading (mapItemToApiRequest item) = none) := by
  constructor
  · intro ht g
    rw [mapItemToApiRequest, ht]
    show itemGrading item = some g ↔ _
    constructor
    · intro h
      rcases hp : item.points with _ | p <;> rcases hca : item.correctAnswer with _ | ca <;>
        rw [itemGrading, hp, hca] at h
      · cases h
      · cases h
      · cases h
      · by_cases hcond : (p != 0 && decide (0 < p) && answerTruthy (some ca)) = true
        · have h' : some ({ pointValue := p, correctAnswers := answersSeq ca } : Grading)
              = some g := by
            rw [← h]
            show _ = if (p != 0 && decide (0 < p) && answerTruthy (some ca)) = true
              then some ({ pointValue := p, correctAnswers := answersSeq ca } : Grading)
              else none
            rw [if_pos hcond]
          have h0 : 0 < p := by
            simp only [Bool.and_eq_true, bne_iff_ne, ne_eq, decide_eq_true_eq] at hcond
            exact hcond.1.2
          have hat : answerTruthy (some ca) = true := by
            simp only [Bool.and_eq_true] at hcond
            exact hcond.2
          exact ⟨p, ca, rfl, h0, rfl, hat, (Option.some.inj h').symm⟩
        · have h' : (none : Option Grading) = some g := by
            rw [← h]
            show _ = if (p != 0 && decide (0 < p) && answerTruthy (some ca)) = true
              then some ({ pointValue := p, correctAnswers := answersSeq ca } : Grading)
              else none
            rw [if_neg hcond]
          cases h'
    · rintro ⟨p, ca, hp, h0, hca, hat, hg⟩
      rw [itemGrading, hp, hca]
      show (if (p != 0 && decide (0 < p) && answerTruthy (some ca)) = true
        then some ({ pointValue := p, correctAnswers := answersSeq ca } : Grading)
        else none) = some g
      have hcond : (p != 0 && decide (0 < p) && answerTruthy (some ca)) = true := by
        simp only [Bool.and_eq_true, bne_iff_ne, ne_eq, decide_eq_true_eq]
        exact ⟨⟨by omega, h0⟩, hat⟩
      rw [if_pos hcond, hg]
  · intro ht
    rw [mapItemToApiRequest, ht]
    rfl

/-- C5, witness: a concrete graded short-answer item with a non-empty
answer carries the expected grading block. -/
theorem c5_witness :
    requestGrading (mapItemToApiRequest
      { title := "Q", type := ItemType.SHORT_ANSWER, points := some 2,
        correctAnswer := some (CorrectAnswer.single "Tokyo") }) =
      some { pointValue := 2, correctAnswers := ["Tokyo"] } :=
  ((c5_amended _).1 rfl _).mpr
    ⟨2, CorrectAnswer.single "Tokyo", rfl, by norm_num, rfl, rfl, rfl⟩

/-! Claim C4 — no membership check on CHECKBOXES answer keys -/

def c4Item : FormItem :=
  { title := "Q", type := ItemType.CHECKBOXES, options := some ["A"],
    points := some 1, correctAnswer := some (CorrectAnswer.multi ["B"]) }

/-- C4, counterexample. A `CHECKBOXES` item whose non-empty `correctAnswer`
contains a value not among `options` is neither rejected nor flagged: the
Mode-A mapper happily emits its creation request, with the grading block
carrying the foreign value, and the Mode-B script block for it carries no
warning comment. -/
theorem c4_counterexample :
    c4Item.type = ItemType.CHECKBOXES ∧
    c4Item.correctAnswer = some (CorrectAnswer.multi ["B"]) ∧
    c4Item.options = some ["A"] ∧ ("B" ∈ ["A"] → False) ∧
    (mapItemToApiRequest c4Item).isSome = true ∧
    requestGrading (mapItemToApiRequest c4Item) =
      some { pointValue := 1, correctAnswers := ["B"] } ∧
    itemWarning c4Item = "" ∧
    strContains (itemScript c4Item) "AI WARNING" = false ∧
    strContains (itemScript c4Item) "MANUAL STEP REQUIRED" = false := by
  refine ⟨rfl, rfl, rfl, by decide, rfl, rfl, rfl, by decide, by decide⟩

/-- C4, amended: the export mapper performs no membership validation of
`correctAnswer` against `options`. Every `CHECKBOXES` item is exported in
Mode A (its request is produced, and when `points > 0` and the answer key
is truthy the grading block carries the `correctAnswer` values verbatim,
in options or not); in Mode B the warning comment appears exactly when
`points > 0` and the answer key is absent or empty — membership violations
are flagged in neither mode. -/
theorem c4_amended (item : FormItem) (h : item.type = ItemType.CHECKBOXES) :
    (mapItemToApiRequest item).isSome = true ∧
    (itemWarning item = "" ↔ ¬(0 < pointsVal item ∧ hasAnswerKey item = false)) ∧
    (∀ p ca, item.points = some p → 0 < p → item.correctAnswer = some ca →
      answerTruthy (some ca) = true →
      requestGrading (mapItemToApiRequest item) =
        some { pointValue := p, correctAnswers := answersSeq ca }) := by
  refine ⟨mapItem_isSome item, ?_, ?_⟩
  · rw [itemWarning, h]
    by_cases hcond : (0 < pointsVal item ∧ hasAnswerKey item = false)
    · have hb : (decide (0 < pointsVal item) && !hasAnswerKey item) = true := by
        simp [hcond.1, hcond.2]
      rw [if_pos hb]
      simp [hcond, choiceWarnLine]
    · have hb : ¬((decide (0 < pointsVal item) && !hasAnswerKey item) = true) := by
        simp only [Bool.and_eq_true, decide_eq_true_eq, Bool.not_eq_true']
        intro hx
        exact hcond ⟨hx.1, hx.2⟩
      rw [if_neg hb]
      simp [hcond]
  · intro p ca hp h0 hca hat
    rw [mapItemToApiRequest, h]
    show itemGrading item = _
    rw [itemGrading, hp, hca]
    show (if (p != 0 && decide (0 < p) && answerTruthy (some ca)) = true
      then some ({ pointValue := p, correctAnswers := answersSeq ca } : Grading)
      else none) = _
    have hcond : (p != 0 && decide (0 < p) && answerTruthy (some ca)) = true := by
      simp only [Bool.and_eq_true, bne_iff_ne, ne_eq, decide_eq_true_eq]
      exact ⟨⟨by omega, h0⟩, hat⟩
    rw [if_pos hcond]

/-- C4, witness: `c4_amended` at the concrete membership-violating item. -/
theorem c4_witness :
    (mapItemToApiRequest c4Item).isSome = true ∧
    requestGrading (mapItemToApiRequest c4Item) =
      some { pointValue := 1, correctAnswers := ["B"] } := by
  have h := c4_amended c4Item rfl
  exact ⟨h.1, h.2.2 1 (CorrectAnswer.multi ["B"]) rfl (by norm_num) rfl rfl⟩

/-! Claim C6 — warning comments in the Mode-B script -/

theorem data_append (a b : String) : (a ++ b).data = a.data ++ b.data := by
  cases a
  cases b
  rfl

theorem str_append_empty (s : String) : s ++ "" = s := by
  cases s with
  | mk d =>
    show String.mk (d ++ []) = String.mk d
    rw [List.append_nil]

theorem startsWithChars_self (p : List Char) : startsWithChars p p = true := by
  induction p with
  | nil => rfl
  | cons c cs ih =>
    rw [startsWithChars, Bool.and_eq_true]
    exact ⟨by simp, ih⟩

theorem startsWithChars_append (p l m : List Char)
    (h : startsWithChars p l = true) : startsWithChars p (l ++ m) = true := by
  induction p generalizing l with
  | nil => rfl
  | cons x xs ih =>
    cases l with
    | nil => cases h
    | cons c cs =>
      rw [List.cons_append, startsWithChars, Bool.and_eq_true]
      rw [startsWithChars, Bool.and_eq_true] at h
      exact ⟨h.1, ih cs h.2⟩

theorem occursIn_of_starts (p l : List Char) (h : startsWithChars p l = true) :
    occursInChars p l = true := by
  cases l with
  | nil =>
    rw [occursInChars]
    exact h
  | cons c cs =>
    rw [occursInChars, h, Bool.true_or]

theorem strContains_refl (s : String) : strContains s s = true :=
  occursIn_of_starts s.data s.data (startsWithChars_self s.data)

theorem occursIn_append_right (pat b : List Char) :
    ∀ a : List Char, occursInChars pat b = true → occursInChars pat (a ++ b) = true := by
  intro a h
  induction a with
  | nil => exact h
  | cons c cs ih =>
    rw [List.cons_append, occursInChars, ih, Bool.or_true]

theorem strContains_of_right (a b pat : String)
    (h : strContains b pat = true) : strContains (a ++ b) pat = true := by
  rw [strContains, data_append]
  exact occursIn_append_right pat.data b.data a.data h

theorem occursIn_nil_pat (l : List Char) : occursInChars [] l = true := by
  cases l <;> rfl

theorem occursIn_append_left (pat b : List Char) :
    ∀ a : List Char, occursInChars pat a = true → occursInChars pat (a ++ b) = true := by
  intro a h
  induction a with
  | nil =>
    rw [occursInChars] at h
    cases hp : pat with
    | nil =>
      rw [List.nil_append]
      exact occursIn_nil_pat b
    | cons x xs =>
      rw [hp] at h
      cases h
  | cons c cs ih =>
    rw [occursInChars, Bool.or_eq_true] at h
    rw [List.cons_append, occursInChars]
    rcases h with h | h
    · have := startsWithChars_append pat (c :: cs) b h
      rw [List.cons_append] at this
      rw [this, Bool.true_or]
    · rw [ih h, Bool.or_true]

theorem strContains_of_left (a b pat : String)
    (h : strContains a pat = true) : strContains (a ++ b) pat = true := by
  rw [strContains, data_append]
  exact occursIn_append_left pat.data b.data a.data h

theorem str_length_append (a b : String) : (a ++ b).length = a.length + b.length := by
  cases a with
  | mk da =>
    cases b with
    | mk db =>
      show (da ++ db).length = da.length + db.length
      exact List.length_append da db

theorem saWarnBlock_ne_empty (item : FormItem) : saWarnBlock item ≠ "" := by
  intro h
  have hd := congrArg String.length h
  rw [saWarnBlock] at hd
  rw [str_length_append, str_length_append, str_length_append] at hd
  rw [show String.length "" = 0 from rfl] at hd
  have h1 : String.length
      "\n\n  // --- IMPORTANT: MANUAL STEP REQUIRED FOR THE QUESTION ABOVE ---" = 69 := by
    decide
  omega

set_option maxRecDepth 4096 in
theorem choiceWarnLine_ne_empty : choiceWarnLine ≠ "" := by decide

def IsChoice (t : ItemType) : Prop :=
  t = ItemType.MULTIPLE_CHOICE ∨ t = ItemType.CHECKBOXES ∨ t = ItemType.DROPDOWN

theorem mem_intercalate_contains (x : String) (sep : String) (l : List String)
    (hx : x ∈ l) : strContains (intercalateStr sep l) x = true := by
  induction l with
  | nil => cases hx
  | cons y rest ih =>
    rcases List.mem_cons.mp hx with h | h
    · subst h
      cases rest with
      | nil => exact strContains_refl x
      | cons z zs =>
        have he : intercalateStr sep (x :: z :: zs)
            = x ++ sep ++ intercalateStr sep (z :: zs) := rfl
        rw [he]
        exact strContains_of_left _ _ _ (strContains_of_left _ _ _ (strContains_refl x))
    · cases rest with
      | nil => cases h
      | cons z zs =>
        have he : intercalateStr sep (y :: z :: zs)
            = y ++ sep ++ intercalateStr sep (z :: zs) := rfl
        rw [he]
        exact strContains_of_right _ _ _ (ih h)

/-- Decomposition: `itemScript` splits into its functional part and its warning block. -/
theorem itemScript_decomp (item : FormItem) :
    itemScript item = itemScriptCore item ++ itemWarning item := by
  rcases ht : item.type with _ | _ | _ | _ | _ | _ <;>
    simp only [itemScript, itemScriptCore, itemWarning, ht]
  · by_cases hp : 0 < pointsVal item
    · simp only [if_pos hp]
    · simp only [if_neg hp, str_append_empty]
  · rw [str_append_empty]
  · by_cases hc : (decide (0 < pointsVal item) && !hasAnswerKey item) = true
    · simp only [if_pos hc]
    · simp only [if_neg hc, str_append_empty]
  · by_cases hc : (decide (0 < pointsVal item) && !hasAnswerKey item) = true
    · simp only [if_pos hc]
    · simp only [if_neg hc, str_append_empty]
  · by_cases hc : (decide (0 < pointsVal item) && !hasAnswerKey item) = true
    · simp only [if_pos hc]
    · simp only [if_neg hc, str_append_empty]
  · rw [str_append_empty]

theorem str_append_assoc (a b c : String) : a ++ b ++ c = a ++ (b ++ c) := by
  cases a with
  | mk da =>
    cases b with
    | mk db =>
      cases c with
      | mk dc =>
        show String.mk ((da ++ db) ++ dc) = String.mk (da ++ (db ++ dc))
        rw [List.append_assoc]

def c6Item : FormItem :=
  { title := "Q6", type := ItemType.SHORT_ANSWER, points := some 1,
    correctAnswer := some (CorrectAnswer.single "") }

set_option maxRecDepth 16384 in
/-- C6, counterexample. The claim says the SHORT_ANSWER warning comment
states the suggested answer "when correctAnswer exists". For a graded
SHORT_ANSWER item whose `correctAnswer` exists but is the empty string the
script instead instructs manual entry (the source tests truthiness and
`""` is falsy), and no suggested answer is stated. -/
theorem c6_counterexample :
    c6Item.correctAnswer.isSome = true ∧ 0 < pointsVal c6Item ∧
    c6Item.type = ItemType.SHORT_ANSWER ∧
    strContains (itemScript c6Item) "The suggested correct answer is" = false ∧
    strContains (itemScript c6Item)
      "You must set the correct answer manually in the Google Forms editor." = true := by
  refine ⟨rfl, by decide, rfl, by decide, by decide⟩

/-- C6, amended: `buildScript` is a total pure function (modelled by the
total `generateAppsScript`), its output contains every item's script block,
each block decomposes as its functional core followed by its warning
comment, and the warning comment is non-empty for exactly these items:
every choice item (MULTIPLE_CHOICE, CHECKBOXES, DROPDOWN) with points > 0
and no identified correct answer (absent or empty answer key), and every
SHORT_ANSWER item with points > 0 — the SHORT_ANSWER comment stating the
suggested answer when correctAnswer exists as a non-empty string, and
instructing manual entry otherwise. -/
theorem c6_amended (form : Form) (item : FormItem) :
    (item ∈ form.items →
      strContains (generateAppsScript form) (itemScript item) = true) ∧
    itemScript item = itemScriptCore item ++ itemWarning item ∧
    (itemWarning item ≠ "" ↔
      (IsChoice item.type ∧ 0 < pointsVal item ∧ hasAnswerKey item = false) ∨
      (item.type = ItemType.SHORT_ANSWER ∧ 0 < pointsVal item)) ∧
    (item.type = ItemType.SHORT_ANSWER → 0 < pointsVal item →
      (∀ s, item.correctAnswer = some (CorrectAnswer.single s) → s ≠ "" →
        strContains (itemScript item)
          ("The suggested correct answer is: " ++ jsStringify s) = true) ∧
      ((∀ s, item.correctAnswer = some (CorrectAnswer.single s) → s = "") →
        strContains (itemScript item)
          "You must set the correct answer manually in the Google Forms editor." = true)) := by
  refine ⟨?_, itemScript_decomp item, ?_, ?_⟩
  · intro hmem
    rw [generateAppsScript]
    exact strContains_of_left _ _ _ (strContains_of_right _ _ _
      (mem_intercalate_contains _ _ _ (List.mem_map_of_mem itemScript hmem)))
  · rcases ht : item.type with _ | _ | _ | _ | _ | _ <;>
      simp only [itemWarning, ht]
    · by_cases hp : 0 < pointsVal item
      · simp only [if_pos hp]
        simp [saWarnBlock_ne_empty item, IsChoice, hp]
      · simp only [if_neg hp]
        simp [IsChoice, hp]
    · simp [IsChoice]
    · by_cases hc : (decide (0 < pointsVal item) && !hasAnswerKey item) = true
      · simp only [if_pos hc]
        simp only [Bool.and_eq_true, decide_eq_true_eq, Bool.not_eq_true'] at hc
        simp [choiceWarnLine_ne_empty, IsChoice, hc.1, hc.2]
      · simp only [if_neg hc]
        simp only [Bool.and_eq_true, decide_eq_true_eq, Bool.not_eq_true'] at hc
        constructor
        · intro h'
          exact absurd rfl h'
        · rintro (⟨_, hp, hk⟩ | ⟨hcon, _⟩)
          · exact absurd ⟨hp, hk⟩ hc
          · exact absurd hcon (by decide)
    · by_cases hc : (decide (0 < pointsVal item) && !hasAnswerKey item) = true
      · simp only [if_pos hc]
        simp only [Bool.and_eq_true, decide_eq_true_eq, Bool.not_eq_true'] at hc
        simp [choiceWarnLine_ne_empty, IsChoice, hc.1, hc.2]
      · simp only [if_neg hc]
        simp only [Bool.and_eq_true, decide_eq_true_eq, Bool.not_eq_true'] at hc
        constructor
        · intro h'
          exact absurd rfl h'
        · rintro (⟨_, hp, hk⟩ | ⟨hcon, _⟩)
          · exact absurd ⟨hp, hk⟩ hc
          · exact absurd hcon (by decide)
    · by_cases hc : (decide (0 < pointsVal item) && !hasAnswerKey item) = true
      · simp only [if_pos hc]
        simp only [Bool.and_eq_true, decide_eq_true_eq, Bool.not_eq_true'] at hc
        simp [choiceWarnLine_ne_empty, IsChoice, hc.1, hc.2]
      · simp only [if_neg hc]
        simp only [Bool.and_eq_true, decide_eq_true_eq, Bool.not_eq_true'] at hc
        constructor
        · intro h'
          exact absurd rfl h'
        · rintro (⟨_, hp, hk⟩ | ⟨hcon, _⟩)
          · exact absurd ⟨hp, hk⟩ hc
          · exact absurd hcon (by decide)
    · simp [IsChoice]
  · intro ht hp
    have hscript : itemScript item =
        ("  var item = form.addTextItem().setTitle(" ++ jsStringify item.title
          ++ ").setRequired(" ++ boolStr (item.required == some true) ++ ");"
          ++ "\n  item.setPoints(" ++ toString (pointsVal item) ++ ");")
        ++ saWarnBlock item := by
      simp only [itemScript, ht, if_pos hp]
    constructor
    · intro s hca hs
      rw [hscript]
      refine strContains_of_right _ _ _ ?_
      rw [saWarnBlock, hca]
      simp only [if_pos (by simpa using hs : (s != "") = true)]
      refine strContains_of_left _ _ _ (strContains_of_right _ _ _ ?_)
      have hsplit :
          ("\n  // You must set this in the Google Forms editor. The suggested correct answer is: "
            : String) ++ jsStringify s =
          "\n  // You must set this in the Google Forms editor. " ++
            ("The suggested correct answer is: " ++ jsStringify s) := by
        rw [← str_append_assoc]
        rfl
      rw [hsplit]
      exact strContains_of_right _ _ _ (strContains_refl _)
    · intro hall
      rw [hscript]
      refine strContains_of_right _ _ _ ?_
      rw [saWarnBlock]
      have hmanual : (match item.correctAnswer with
          | some (CorrectAnswer.single s) =>
            if s != "" then
              "\n  // You must set this in the Google Forms editor. The suggested correct answer is: "
                ++ jsStringify s
            else "\n  // You must set the correct answer manually in the Google Forms editor."
          | _ => "\n  // You must set the correct answer manually in the Google Forms editor.") =
          "\n  // You must set the correct answer manually in the Google Forms editor." := by
        rcases hca : item.correctAnswer with _ | ca
        · rfl
        · rcases ca with s | xs
          · have hs := hall s hca
            subst hs
            rfl
          · rfl
      rw [hmanual]
      refine strContains_of_left _ _ _ (strContains_of_right _ _ _ ?_)
      have hsplit :
          ("\n  // You must set the correct answer manually in the Google Forms editor."
            : String) =
          "\n  // " ++ "You must set the correct answer manually in the Google Forms editor." := by
        decide
      rw [hsplit]
      exact strContains_of_right _ _ _ (strContains_refl _)

def c6WitnessForm : Form :=
  { title := "WT", description := "WD",
    items := [{ title := "WQ", type := ItemType.DROPDOWN,
                options := some ["a", "b"], points := some 1 }] }

/-- C6, witness: the whole generated script for a one-item form contains
that item's script block. -/
theorem c6_witness :
    strContains (generateAppsScript c6WitnessForm)
      (itemScript { title := "WQ", type := ItemType.DROPDOWN,
                    options := some ["a", "b"], points := some 1 }) = true :=
  (c6_amended c6WitnessForm _).1 (by simp [c6WitnessForm])

/-! Claim C7 — the OCR-fallback trigger -/

theorem pdfLoop_calls_cons (k : Nat) (p : PdfPage) (ps : List PdfPage) :
    (pdfLoop k (p :: ps)).2.1 =
      if ocrCond p = true then k :: (pdfLoop (k + 1) ps).2.1
      else (pdfLoop (k + 1) ps).2.1 := by
  simp only [pdfLoop]
  by_cases hc : ocrCond p = true
  · rw [if_pos hc, if_pos hc]
    rcases hr : p.ocrResult with _ | t <;> rfl
  · rw [if_neg hc, if_neg hc]

theorem pdfLoop_calls_bound (ps : List PdfPage) :
    ∀ k, ∀ j ∈ (pdfLoop k ps).2.1, k ≤ j := by
  induction ps with
  | nil =>
    intro k j hj
    cases hj
  | cons p ps ih =>
    intro k j hj
    rw [pdfLoop_calls_cons] at hj
    by_cases hc : ocrCond p = true
    · rw [if_pos hc] at hj
      rcases List.mem_cons.mp hj with h | h
      · omega
      · have := ih (k + 1) j h
        omega
    · rw [if_neg hc] at hj
      have := ih (k + 1) j hj
      omega

theorem pdfLoop_count_lt (ps : List PdfPage) (k m : Nat) (hm : m < k) :
    ((pdfLoop k ps).2.1).count m = 0 := by
  rw [List.count_eq_zero]
  intro hmem
  have := pdfLoop_calls_bound ps k m hmem
  omega

theorem pdfLoop_count (ps : List PdfPage) :
    ∀ k i, ∀ h : i < ps.length,
      ((pdfLoop k ps).2.1).count (k + i) =
        if ocrCond (ps.get ⟨i, h⟩) = true then 1 else 0 := by
  induction ps with
  | nil =>
    intro k i h
    exact absurd h (Nat.not_lt_zero i)
  | cons p ps ih =>
    intro k i h
    rw [pdfLoop_calls_cons]
    cases i with
    | zero =>
      simp only [List.get]
      by_cases hc : ocrCond p = true
      · rw [if_pos hc, if_pos hc]
        rw [List.count_cons]
        have h0 : ((pdfLoop (k + 1) ps).2.1).count k = 0 :=
          pdfLoop_count_lt ps (k + 1) k (by omega)
        simp [h0]
      · rw [if_neg hc, if_neg hc]
        exact pdfLoop_count_lt ps (k + 1) (k + 0) (by omega)
    | succ n =>
      have hn : n < ps.length := by
        simpa using Nat.lt_of_succ_lt_succ h
      have hne : k + (n + 1) ≠ k := by omega
      have hx : ((pdfLoop (k + 1) ps).2.1).count (k + (n + 1)) =
          if ocrCond (ps.get ⟨n, hn⟩) = true then 1 else 0 := by
        have := ih (k + 1) n hn
        have harith : k + 1 + n = k + (n + 1) := by omega
        rw [harith] at this
        exact this
      by_cases hc : ocrCond p = true
      · rw [if_pos hc, List.count_cons]
        simp only [List.get]
        simp [hne, hx]
      · rw [if_neg hc]
        simp only [List.get]
        exact hx

def c7Page : PdfPage :=
  { extractedText := ⟨List.replicate 60 ' '⟩, height := 200,
    ocrResult := some "ocr text" }

set_option maxRecDepth 32768 in
/-- C7, counterexample. The claim says a page whose extracted text has
length 50 or more never triggers OCR; but the source measures the
length of the *trimmed* text (`pageText.trim().length < 50`), so a page of
60 spaces (raw length 60 ≥ 50, trimmed length 0) does invoke the OCR
client — exactly once. -/
theorem c7_counterexample :
    50 ≤ c7Page.extractedText.length ∧
    100 < c7Page.height ∧
    (pdfLoop 1 [c7Page]).2.1 = [1] := by
  refine ⟨by decide, by decide, by decide⟩

/-- C7, amended: during PDF ingestion, for every page (pages numbered from
1) whose *whitespace-trimmed* extracted text length is below 50 while the
rendered page height exceeds 100, the OCR client is invoked exactly once
for that page; for every page whose trimmed extracted text has length 50
or more, it is not invoked at all. -/
theorem c7_amended (pages : List PdfPage) (i : Nat) (h : i < pages.length) :
    ((pdfLoop 1 pages).2.1).count (1 + i) =
      (if ocrCond (pages.get ⟨i, h⟩) = true then 1 else 0) ∧
    ((jsTrim (pages.get ⟨i, h⟩).extractedText).length < 50 →
      100 < (pages.get ⟨i, h⟩).height →
      ((pdfLoop 1 pages).2.1).count (1 + i) = 1) ∧
    (50 ≤ (jsTrim (pages.get ⟨i, h⟩).extractedText).length →
      ((pdfLoop 1 pages).2.1).count (1 + i) = 0) := by
  have hcount := pdfLoop_count pages 1 i h
  refine ⟨hcount, ?_, ?_⟩
  · intro hlen hht
    rw [hcount]
    have hc : ocrCond (pages.get ⟨i, h⟩) = true := by
      rw [ocrCond]
      simp only [Bool.and_eq_true, decide_eq_true_eq]
      exact ⟨hlen, hht⟩
    rw [if_pos hc]
  · intro hlen
    rw [hcount]
    have hc : ¬ocrCond (pages.get ⟨i, h⟩) = true := by
      rw [ocrCond]
      simp only [Bool.and_eq_true, decide_eq_true_eq]
      intro hcon
      omega
    rw [if_neg hc]

set_option maxRecDepth 32768 in
/-- C7, witness: a two-page document — a sparse page (trimmed length 0,
height 200) and a text-rich page — has OCR invoked exactly once, for the
sparse page only. -/
theorem c7_witness :
    ((pdfLoop 1 [{ extractedText := "x", height := 200, ocrResult := some "t" },
                 { extractedText := ⟨List.replicate 60 'a'⟩, height := 200,
                   ocrResult := some "u" }]).2.1).count 1 = 1 ∧
    ((pdfLoop 1 [{ extractedText := "x", height := 200, ocrResult := some "t" },
                 { extractedText := ⟨List.replicate 60 'a'⟩, height := 200,
                   ocrResult := some "u" }]).2.1).count 2 = 0 := by
  constructor
  · exact (c7_amended _ 0 (by decide)).2.1 (by decide) (by decide)
  · exact (c7_amended _ 1 (by decide)).2.2 (by decide)

/-! Claim C8 — unsupported file types -/

def c8File : IngestFile :=
  { name := "notes.exe", mimeType := "application/octet-stream",
    pdfPages := [], docxText := "", rawText := "" }

/-- C8, counterexample. The claim says a rejected file "leaves the
previously held input text unchanged"; but `processFile` clears the input
(`setInputText('')`) before the type dispatch, so prior input is lost. -/
theorem c8_counterexample :
    processFile { inputText := "prior input", fileError := none } c8File =
      { inputText := "", fileError := some unsupportedMsg } ∧
    ("" : String) ≠ "prior input" := by
  refine ⟨by decide, by decide⟩

/-- C8, amended: for every file whose type is not among the supported
formats (PDF, DOCX, TXT, MD), ingestion fails with a message listing the
accepted formats and aborts ingestion for that file — but the previously
held input text is *cleared* (set to the empty string), not preserved,
because `processFile` blanks the input before dispatching on the type. -/
theorem c8_amended (s : PanelState) (f : IngestFile)
    (h1 : isPdfFile f = false) (h2 : isDocxFile f = false)
    (h3 : isTextFile f = false) :
    processFile s f = { inputText := "", fileError := some unsupportedMsg } ∧
    strContains unsupportedMsg "PDF" = true ∧
    strContains unsupportedMsg "DOCX" = true ∧
    strContains unsupportedMsg "TXT" = true ∧
    strContains unsupportedMsg "MD" = true := by
  refine ⟨?_, by decide, by decide, by decide, by decide⟩
  rw [processFile]
  rw [if_neg (by rw [h1]; exact Bool.false_ne_true), if_neg (by rw [h2]; exact Bool.false_ne_true),
    if_neg (by rw [h3]; exact Bool.false_ne_true)]

/-- C8, witness: `c8_amended` at a concrete unsupported file over concrete
prior state. -/
theorem c8_witness :
    processFile { inputText := "kept?", fileError := none } c8File =
      { inputText := "", fileError := some unsupportedMsg } :=
  (c8_amended { inputText := "kept?", fileError := none } c8File
    (by decide) (by decide) (by decide)).1

/-! Claim C3 — the three GenerationError causes -/

/-- C3: `generateFormFromText` verifies the three required top-level
fields on the parsed response (success demands a truthy `title`, a truthy
`description`, and `items` an actual array), and its three failure paths —
upstream call failure, malformed JSON after sanitization, and missing
required fields — carry pairwise distinct messages. -/
theorem c3_generation_errors :
    generateFormFromText UpstreamResult.failure = Except.error upstreamFailMsg ∧
    (∀ t, parseJson (preprocess t) = none →
      generateFormFromText (UpstreamResult.success t) = Except.error couldNotProcessMsg) ∧
    (∀ t j, parseJson (preprocess t) = some j →
      generateFormFromText (UpstreamResult.success t) = validateFields j) ∧
    (∀ j, validateFields j = Except.ok j ↔
      (truthy (getField j "title") = true ∧ truthy (getField j "description") = true ∧
        isJsonArray (getField j "items") = true)) ∧
    (∀ j, validateFields j = Except.error missingFieldsMsg ∨ validateFields j = Except.ok j) ∧
    upstreamFailMsg ≠ couldNotProcessMsg ∧
    upstreamFailMsg ≠ missingFieldsMsg ∧
    couldNotProcessMsg ≠ missingFieldsMsg := by
  refine ⟨rfl, ?_, ?_, ?_, ?_, ?_, ?_, ?_⟩
  · intro t hp
    rw [generateFormFromText, hp]
  · intro t j hp
    rw [generateFormFromText, hp]
  · intro j
    rw [validateFields]
    by_cases hcond : (!truthy (getField j "title") || !truthy (getField j "description")
        || !isJsonArray (getField j "items")) = true
    · rw [if_pos hcond]
      simp only [Bool.or_eq_true, Bool.not_eq_true'] at hcond
      constructor
      · intro hcon
        cases hcon
      · rintro ⟨h1, h2, h3⟩
        rcases hcond with (hx | hx) | hx <;>
          first
            | (rw [h1] at hx; cases hx)
            | (rw [h2] at hx; cases hx)
            | (rw [h3] at hx; cases hx)
    · rw [if_neg hcond]
      simp only [Bool.or_eq_true, Bool.not_eq_true', not_or] at hcond
      simp only [true_iff]
      refine ⟨?_, ?_, ?_⟩
      · cases hx : truthy (getField j "title")
        · exact absurd hx hcond.1.1
        · rfl
      · cases hx : truthy (getField j "description")
        · exact absurd hx hcond.1.2
        · rfl
      · cases hx : isJsonArray (getField j "items")
        · exact absurd hx hcond.2
        · rfl
  · intro j
    rw [validateFields]
    by_cases hcond : (!truthy (getField j "title") || !truthy (getField j "description")
        || !isJsonArray (getField j "items")) = true
    · rw [if_pos hcond]
      exact Or.inl rfl
    · rw [if_neg hcond]
      exact Or.inr rfl
  · decide
  · decide
  · decide

/-! Claim C10 — strictness of the required-field check -/

theorem validateFields_ok_shape (j v : Json) (hok : validateFields j = Except.ok v) :
    truthy (getField j "title") = true ∧ truthy (getField j "description") = true ∧
    isJsonArray (getField j "items") = true := by
  rw [validateFields] at hok
  cases h1 : truthy (getField j "title") <;>
    cases h2 : truthy (getField j "description") <;>
      cases h3 : isJsonArray (getField j "items") <;>
        rw [h1, h2, h3] at hok <;>
          first
            | exact Except.noConfusion hok
            | exact ⟨rfl, rfl, rfl⟩

/-- C10: the required-field check of `generateFormFromText` is strictly
stronger than presence of the three keys: a `title` or `description` that
is present but equal to the empty string is rejected with the very
missing-required-fields error used for an absent field (shown end-to-end
on a concrete upstream response), and success requires `items` to be an
actual JSON array. -/
theorem c10_required_fields_strict :
    (∀ j, getField j "title" = some (Json.str "") →
      validateFields j = Except.error missingFieldsMsg) ∧
    (∀ j, getField j "description" = some (Json.str "") →
      validateFields j = Except.error missingFieldsMsg) ∧
    (∀ j v, validateFields j = Except.ok v →
      ∃ xs, getField j "items" = some (Json.arr xs)) ∧
    generateFormFromText (UpstreamResult.success
      "\x7b\"title\":\"\",\"description\":\"D\",\"items\":[]\x7d") =
      Except.error missingFieldsMsg ∧
    (∃ j : Json, (getField j "title").isSome = true ∧
      (getField j "description").isSome = true ∧
      (getField j "items").isSome = true ∧
      validateFields j = Except.error missingFieldsMsg) := by
  refine ⟨?_, ?_, ?_, ?_, ?_⟩
  · intro j hx
    rw [validateFields, hx]
    rfl
  · intro j hx
    rw [validateFields, hx]
    cases hx2 : truthy (getField j "title") <;> rfl
  · intro j v hok
    have harr := (validateFields_ok_shape j v hok).2.2
    rcases hx : getField j "items" with _ | jv
    · rw [hx] at harr
      cases harr
    · rcases jv with _ | b | tok | s | xs | fields <;> rw [hx] at harr
      · cases harr
      · cases harr
      · cases harr
      · cases harr
      · exact ⟨xs, rfl⟩
      · cases harr
  · rfl
  · refine ⟨Json.obj [("title", Json.str ""), ("description", Json.str "D"),
      ("items", Json.arr [])], rfl, rfl, rfl, rfl⟩

/-! Claim C9 — the fence-stripping pipeline

Whitespace bookkeeping lemmas first. -/

theorem allWS_dropLead (l : List Char) : allWS (dropLeadWS l) = allWS l := by
  induction l with
  | nil => rfl
  | cons c cs ih =>
    by_cases hc : jsWS c = true
    · rw [dropLeadWS, if_pos hc, ih, allWS, hc, Bool.true_and]
    · have hcf : jsWS c = false := by
        cases hx : jsWS c
        · rfl
        · exact absurd hx hc
      rw [dropLeadWS, if_neg hc]

theorem dropLead_eq_nil_of_allWS {l : List Char} (h : allWS l = true) :
    dropLeadWS l = [] := by
  induction l with
  | nil => rfl
  | cons c cs ih =>
    rw [allWS, Bool.and_eq_true] at h
    rw [dropLeadWS, if_pos h.1]
    exact ih h.2

theorem allWS_of_dropTrail_nil {l : List Char} (h : dropTrailWS l = []) :
    allWS l = true := by
  cases l with
  | nil => rfl
  | cons c cs =>
    rw [dropTrailWS] at h
    by_cases ha : allWS (c :: cs) = true
    · exact ha
    · rw [if_neg ha] at h
      cases h

theorem dropTrail_nil_of_allWS_dropTrail {l : List Char}
    (h : allWS (dropTrailWS l) = true) : dropTrailWS l = [] := by
  induction l with
  | nil => rfl
  | cons c cs ih =>
    by_cases ha : allWS (c :: cs) = true
    · rw [dropTrailWS, if_pos ha]
    · rw [dropTrailWS, if_neg ha] at h ⊢
      rw [allWS, Bool.and_eq_true] at h
      have h2 := ih h.2
      have h3 := allWS_of_dropTrail_nil h2
      exact absurd (by rw [allWS, h.1, h3]; rfl) ha

theorem dropTrail_idem (l : List Char) : dropTrailWS (dropTrailWS l) = dropTrailWS l := by
  induction l with
  | nil => rfl
  | cons c cs ih =>
    by_cases ha : allWS (c :: cs) = true
    · rw [dropTrailWS, if_pos ha]
      rfl
    · rw [dropTrailWS, if_neg ha]
      rw [dropTrailWS]
      have hcond : allWS (c :: dropTrailWS cs) = false := by
        cases hx : allWS (c :: dropTrailWS cs)
        · rfl
        · exfalso
          rw [allWS, Bool.and_eq_true] at hx
          have h2 := dropTrail_nil_of_allWS_dropTrail hx.2
          have h3 := allWS_of_dropTrail_nil h2
          exact ha (by rw [allWS, hx.1, h3]; rfl)
      rw [if_neg (by rw [hcond]; exact Bool.false_ne_true), ih]

theorem dropLead_head_shape (l : List Char) :
    dropLeadWS l = [] ∨ ∃ c cs, dropLeadWS l = c :: cs ∧ jsWS c = false := by
  induction l with
  | nil => exact Or.inl rfl
  | cons c cs ih =>
    by_cases hc : jsWS c = true
    · rw [dropLeadWS, if_pos hc]
      exact ih
    · have hcf : jsWS c = false := by
        cases hx : jsWS c
        · rfl
        · exact absurd hx hc
      rw [dropLeadWS, if_neg hc]
      exact Or.inr ⟨c, cs, rfl, hcf⟩

theorem dropLead_dropTrail_dropLead (l : List Char) :
    dropLeadWS (dropTrailWS (dropLeadWS l)) = dropTrailWS (dropLeadWS l) := by
  rcases dropLead_head_shape l with h | ⟨c, cs, hc, hcf⟩
  · rw [h]
    rfl
  · rw [hc]
    have hna : allWS (c :: cs) = false := by rw [allWS, hcf, Bool.false_and]
    rw [dropTrailWS, if_neg (by rw [hna]; exact Bool.false_ne_true)]
    rw [dropLeadWS, if_neg (by rw [hcf]; exact Bool.false_ne_true)]

theorem jsTrim_idem (s : String) : jsTrim (jsTrim s) = jsTrim s := by
  show (⟨dropTrailWS (dropLeadWS (dropTrailWS (dropLeadWS s.data)))⟩ : String)
    = ⟨dropTrailWS (dropLeadWS s.data)⟩
  rw [dropLead_dropTrail_dropLead, dropTrail_idem]

theorem jsTrim_eq_empty_iff (s : String) : jsTrim s = "" ↔ allWS s.data = true := by
  constructor
  · intro h
    have hd : dropTrailWS (dropLeadWS s.data) = [] := congrArg String.data h
    have := allWS_of_dropTrail_nil hd
    rw [allWS_dropLead] at this
    exact this
  · intro h
    show (⟨dropTrailWS (dropLeadWS s.data)⟩ : String) = ""
    rw [dropLead_eq_nil_of_allWS h]
    rfl

/-- Stripping the language tag: `\w*` consumes exactly the tag. -/
theorem dropWord_all_word (w rest : List Char) (hw : ∀ c ∈ w, isWordChar c = true) :
    dropWordChars (w ++ '\n' :: rest) = '\n' :: rest := by
  induction w with
  | nil =>
    rw [List.nil_append, dropWordChars,
      if_neg (by rw [show isWordChar '\n' = false from rfl]; exact Bool.false_ne_true)]
  | cons c cs ih =>
    rw [List.cons_append, dropWordChars, if_pos (hw c (List.mem_cons_self c cs))]
    exact ih (fun d hd => hw d (List.mem_cons_of_mem c hd))

theorem dropLead_append (l m : List Char) :
    dropLeadWS (l ++ m) = if allWS l = true then dropLeadWS m else dropLeadWS l ++ m := by
  induction l with
  | nil =>
    rw [List.nil_append]
    simp [allWS]
  | cons c cs ih =>
    by_cases hc : jsWS c = true
    · have h1 : dropLeadWS ((c :: cs) ++ m) = dropLeadWS (cs ++ m) := by
        rw [List.cons_append, dropLeadWS, if_pos hc]
      have h2 : dropLeadWS (c :: cs) = dropLeadWS cs := by
        rw [dropLeadWS, if_pos hc]
      have h3 : allWS (c :: cs) = allWS cs := by
        rw [allWS, hc, Bool.true_and]
      rw [h1, ih, h2, h3]
    · have hcf : jsWS c = false := by
        cases hx : jsWS c
        · rfl
        · exact absurd hx hc
      have h1 : dropLeadWS ((c :: cs) ++ m) = (c :: cs) ++ m := by
        rw [List.cons_append, dropLeadWS, if_neg hc]
      have h2 : dropLeadWS (c :: cs) = c :: cs := by
        rw [dropLeadWS, if_neg hc]
      have h3 : allWS (c :: cs) = false := by
        rw [allWS, hcf, Bool.false_and]
      rw [h1, h2, h3, if_neg (by exact Bool.false_ne_true)]

theorem isWsThenFence_append (l : List Char) :
    isWsThenFence (l ++ '\n' :: fence3) = allWS l := by
  rw [isWsThenFence, dropLead_append]
  by_cases ha : allWS l = true
  · rw [if_pos ha, ha]
    decide
  · have haf : allWS l = false := by
      cases hx : allWS l
      · rfl
      · exact absurd hx ha
    rw [if_neg ha, haf]
    rcases dropLead_head_shape l with h | ⟨c, cs, hc, hcf⟩
    · exfalso
      have := allWS_dropLead l
      rw [h] at this
      exact ha (by rw [← this]; rfl)
    · rw [hc]
      cases hbeq : ((c :: cs) ++ '\n' :: fence3 == fence3)
      · rfl
      · exfalso
        have heq := eq_of_beq hbeq
        have hlen := congrArg List.length heq
        rw [List.length_append] at hlen
        simp [fence3] at hlen

/-- The lazy `(.*?)` cut: on `interior ++ "\n" ++ fence` it keeps the
interior minus its trailing whitespace. -/
theorem findCut_append (l : List Char) :
    findCut (l ++ '\n' :: fence3) = some (dropTrailWS l) := by
  induction l with
  | nil => decide
  | cons c cs ih =>
    have hiw := isWsThenFence_append (c :: cs)
    rw [List.cons_append] at hiw
    rw [List.cons_append, findCut, hiw]
    by_cases ha : allWS (c :: cs) = true
    · rw [if_pos ha, dropTrailWS, if_pos ha]
    · rw [if_neg ha, ih, dropTrailWS, if_neg ha]
      rfl

theorem fenceMatch_cons (c1 c2 c3 : Char) (rest : List Char) (z : String)
    (hz : z.data = c1 :: c2 :: c3 :: rest) :
    fenceMatch z =
      if (decide (c1 = backtick) && decide (c2 = backtick) && decide (c3 = backtick)) = true
      then Option.map (fun m => (⟨m⟩ : String)) (findCut (dropLeadWS (dropWordChars rest)))
      else none := by
  rw [fenceMatch, hz]

/-- The fence regex on a wholly wrapped payload: group 2 is the trimmed
interior. -/
theorem fenceMatch_of_fenced (lang i z : String) (hf : IsFencedSpec lang i z) :
    fenceMatch z = some (jsTrim i) := by
  obtain ⟨hw, ht⟩ := hf
  have hdata : z.data = backtick :: backtick :: backtick ::
      (lang.data ++ ('\n' :: (i.data ++ ('\n' :: fence3)))) := by
    rw [ht, data_append, data_append, data_append, data_append]
    simp only [List.append_assoc]
    rfl
  rw [fenceMatch_cons _ _ _ _ z hdata, if_pos (by decide)]
  rw [dropWord_all_word lang.data _ (fun c hc => by
    have := hw
    rw [List.all_eq_true] at this
    exact this c hc)]
  have hlead : dropLeadWS ('\n' :: (i.data ++ ('\n' :: fence3)))
      = dropLeadWS (i.data ++ ('\n' :: fence3)) := rfl
  rw [hlead, dropLead_append]
  by_cases ha : allWS i.data = true
  · rw [if_pos ha]
    have h1 : dropLeadWS ('\n' :: fence3) = fence3 := rfl
    rw [h1]
    have h2 : findCut fence3 = some [] := by decide
    rw [h2]
    have h3 : jsTrim i = "" := (jsTrim_eq_empty_iff i).mpr ha
    rw [h3]
    rfl
  · rw [if_neg ha, findCut_append]
    rfl

/-- When the trimmed text does not start with three backticks, the fence
regex does not match. -/
theorem fenceMatch_none_of_no_fence (z : String)
    (h : startsWithChars fence3 z.data = false) : fenceMatch z = none := by
  rcases hz : z.data with _ | ⟨c1, _ | ⟨c2, _ | ⟨c3, rest⟩⟩⟩
  · rw [fenceMatch, hz]
  · rw [fenceMatch, hz]
  · rw [fenceMatch, hz]
  · rw [fenceMatch_cons c1 c2 c3 rest z hz]
    rw [hz] at h
    have hcond : (decide (c1 = backtick) && decide (c2 = backtick)
        && decide (c3 = backtick)) = false := by
      by_cases h1 : c1 = backtick
      · by_cases h2 : c2 = backtick
        · by_cases h3 : c3 = backtick
          · exfalso
            subst h1
            subst h2
            subst h3
            simp [startsWithChars, fence3] at h
          · simp [h3]
        · simp [h2]
      · simp [h1]
    rw [hcond]
    rfl

/-- The whole preprocessing pipeline, unfolded by definitional equality. -/
theorem preprocess_eq (t : String) :
    preprocess t = sanitizeJsonString
      (match fenceMatch (jsTrim t) with
       | some m => if m == "" then jsTrim t else jsTrim m
       | none => jsTrim t) := rfl

def c9CexText : String := "\x60\x60\x60\n\n\x60\x60\x60"

/-- C9, counterexample. The claim says any input wholly wrapped in a
fenced block is unwrapped to its interior. The fenced text with an empty
interior refutes it: the source only unwraps when the regex group is
truthy (`match && match[2]`), and an empty group is falsy, so the fenced
text passes through whole (comma-sanitized), not as its (empty)
interior. -/
theorem c9_counterexample :
    IsFencedSpec "" "" c9CexText ∧
    preprocess c9CexText = c9CexText ∧
    c9CexText ≠ "" := by
  refine ⟨⟨rfl, by decide⟩, by decide, by decide⟩

/-- C9, amended: for input whose trimmed text is wholly wrapped in a
single fenced block (opening fence with optional language tag, closing
fence) with an interior that is not pure whitespace, the pipeline returns
the interior trimmed of surrounding whitespace and comma-sanitized; a
fenced input with a whitespace-only interior is *not* unwrapped (the whole
trimmed text is comma-sanitized); and input whose trimmed text does not
begin with a fence passes through trimmed and comma-sanitized. -/
theorem c9_amended (t lang i : String) :
    (IsFencedSpec lang i (jsTrim t) → jsTrim i ≠ "" →
      preprocess t = sanitizeJsonString (jsTrim i)) ∧
    (IsFencedSpec lang i (jsTrim t) → jsTrim i = "" →
      preprocess t = sanitizeJsonString (jsTrim t)) ∧
    (startsWithChars fence3 (jsTrim t).data = false →
      preprocess t = sanitizeJsonString (jsTrim t)) := by
  refine ⟨?_, ?_, ?_⟩
  · intro hf hne
    rw [preprocess_eq, fenceMatch_of_fenced lang i _ hf]
    have hbeq : (jsTrim i == "") = false := by
      cases hx : (jsTrim i == "")
      · rfl
      · exact absurd (eq_of_beq hx) hne
    show sanitizeJsonString (if jsTrim i == "" then jsTrim t else jsTrim (jsTrim i)) = _
    rw [hbeq]
    show sanitizeJsonString (jsTrim (jsTrim i)) = _
    rw [jsTrim_idem]
  · intro hf he
    rw [preprocess_eq, fenceMatch_of_fenced lang i _ hf]
    show sanitizeJsonString (if jsTrim i == "" then jsTrim t else jsTrim (jsTrim i)) = _
    rw [he]
    rfl
  · intro hp
    rw [preprocess_eq, fenceMatch_none_of_no_fence _ hp]

def c9WitText : String := "\x60\x60\x60json\n[1,]\n\x60\x60\x60"

/-- C9, witness: a fenced `[1,]` payload with a `json` language tag is
unwrapped and comma-sanitized to `[1]`. -/
theorem c9_witness : preprocess c9WitText = "[1]" := by
  have h := (c9_amended c9WitText "json" "[1,]").1 ⟨by decide, by decide⟩ (by decide)
  rw [h]
  decide

end FormArch
